import Mathlib

set_option allowUnsafeReducibility true
attribute [local semireducible] Rat.add Rat.sub Rat.mul Rat.inv Rat.ofScientific

/-! Shallow embedding of the TEMPDROP decode / interpolate / drift-correct /
rewrite pipeline of the ufs_obs repository (modules
`sorc/obsio/sonde/hsa.py`, `sorc/obsio/sonde/hsa/{location,write}.py`,
`sorc/obsio/sonde/advect.py`, `sorc/obsio/sonde/advect/{interp,update_time}.py`
and the class methods in `sorc/obsio/tempdrop_read.py`), together with
theorems settling the frozen claims about it.

Modelling conventions:
* Python/numpy floating-point values are modelled over `ℚ`; numpy NaN is
  modelled as `none` in `Option ℚ`.
* numpy float64 division-by-zero semantics (silent Inf/NaN instead of an
  exception) are modelled by the `NpVal` type where they matter
  (`offset_seconds` in `update_time`).
* External collaborators that are not part of this repository's sources
  (`diags.grids.haversine`, `diags.grids.bearing_geoloc`, `numpy.sqrt`,
  `numpy.degrees`/`numpy.arctan2`, `tools.datetime_interface.datestrupdate`,
  and the empirical fall-rate routine `gsndfall2` from `obsio.sonde.aoml`,
  whose module is not among the sources) are opaque function parameters.
* Python strings are modelled as `List Char`.
-/

namespace UfsObs

/-! ### Generic list min/max helpers

Python's built-in `min(list)` / `max(list)` over a nonempty list of floats. -/

def listMin : List ℚ → ℚ
  | [] => 0
  | x :: xs => xs.foldl min x

def listMax : List ℚ → ℚ
  | [] => 0
  | x :: xs => xs.foldl max x

theorem foldl_min_le_init (xs : List ℚ) (a : ℚ) : xs.foldl min a ≤ a := by
  induction xs generalizing a with
  | nil => simp
  | cons x xs ih =>
      calc (x :: xs).foldl min a = xs.foldl min (min a x) := rfl
        _ ≤ min a x := ih (min a x)
        _ ≤ a := min_le_left a x

theorem foldl_min_le_mem {xs : List ℚ} {y : ℚ} (a : ℚ) (hy : y ∈ xs) :
    xs.foldl min a ≤ y := by
  induction xs generalizing a with
  | nil => cases hy
  | cons x xs ih =>
      rcases List.mem_cons.mp hy with h | h
      · subst h
        calc (y :: xs).foldl min a = xs.foldl min (min a y) := rfl
          _ ≤ min a y := foldl_min_le_init xs (min a y)
          _ ≤ y := min_le_right a y
      · exact ih (min a x) h

theorem le_foldl_min {xs : List ℚ} {b : ℚ} (a : ℚ) (ha : b ≤ a)
    (h : ∀ y ∈ xs, b ≤ y) : b ≤ xs.foldl min a := by
  induction xs generalizing a with
  | nil => simpa using ha
  | cons x xs ih =>
      exact ih (min a x) (le_min ha (h x (List.mem_cons_self x xs)))
        (fun y hy => h y (List.mem_cons_of_mem x hy))

theorem foldl_min_mem (xs : List ℚ) (a : ℚ) : xs.foldl min a ∈ a :: xs := by
  induction xs generalizing a with
  | nil => simp
  | cons x xs ih =>
      have h := ih (min a x)
      rcases List.mem_cons.mp h with h' | h'
      · rcases min_choice a x with hc | hc
        · rw [show (x :: xs).foldl min a = xs.foldl min (min a x) from rfl, h', hc]
          exact List.mem_cons_self a (x :: xs)
        · rw [show (x :: xs).foldl min a = xs.foldl min (min a x) from rfl, h', hc]
          exact List.mem_cons_of_mem a (List.mem_cons_self x xs)
      · exact List.mem_cons_of_mem a (List.mem_cons_of_mem x h')

theorem listMin_le {xs : List ℚ} {y : ℚ} (hy : y ∈ xs) : listMin xs ≤ y := by
  cases xs with
  | nil => cases hy
  | cons x xs =>
      rcases List.mem_cons.mp hy with h | h
      · exact h ▸ foldl_min_le_init xs x
      · exact foldl_min_le_mem x h

theorem le_listMin {xs : List ℚ} {b : ℚ} (hne : xs ≠ [])
    (h : ∀ y ∈ xs, b ≤ y) : b ≤ listMin xs := by
  cases xs with
  | nil => exact absurd rfl hne
  | cons x xs =>
      exact le_foldl_min x (h x (List.mem_cons_self x xs))
        (fun y hy => h y (List.mem_cons_of_mem x hy))

theorem listMin_mem {xs : List ℚ} (hne : xs ≠ []) : listMin xs ∈ xs := by
  cases xs with
  | nil => exact absurd rfl hne
  | cons x xs => exact foldl_min_mem xs x

theorem foldl_max_le_init (xs : List ℚ) (a : ℚ) : a ≤ xs.foldl max a := by
  induction xs generalizing a with
  | nil => simp
  | cons x xs ih =>
      calc a ≤ max a x := le_max_left a x
        _ ≤ xs.foldl max (max a x) := ih (max a x)
        _ = (x :: xs).foldl max a := rfl

theorem foldl_max_le_mem {xs : List ℚ} {y : ℚ} (a : ℚ) (hy : y ∈ xs) :
    y ≤ xs.foldl max a := by
  induction xs generalizing a with
  | nil => cases hy
  | cons x xs ih =>
      rcases List.mem_cons.mp hy with h | h
      · subst h
        calc y ≤ max a y := le_max_right a y
          _ ≤ xs.foldl max (max a y) := foldl_max_le_init xs (max a y)
      · exact ih (max a x) h

theorem foldl_max_le {xs : List ℚ} {b : ℚ} (a : ℚ) (ha : a ≤ b)
    (h : ∀ y ∈ xs, y ≤ b) : xs.foldl max a ≤ b := by
  induction xs generalizing a with
  | nil => simpa using ha
  | cons x xs ih =>
      exact ih (max a x) (max_le ha (h x (List.mem_cons_self x xs)))
        (fun y hy => h y (List.mem_cons_of_mem x hy))

theorem foldl_max_mem (xs : List ℚ) (a : ℚ) : xs.foldl max a ∈ a :: xs := by
  induction xs generalizing a with
  | nil => simp
  | cons x xs ih =>
      have h := ih (max a x)
      rcases List.mem_cons.mp h with h' | h'
      · rcases max_choice a x with hc | hc
        · rw [show (x :: xs).foldl max a = xs.foldl max (max a x) from rfl, h', hc]
          exact List.mem_cons_self a (x :: xs)
        · rw [show (x :: xs).foldl max a = xs.foldl max (max a x) from rfl, h', hc]
          exact List.mem_cons_of_mem a (List.mem_cons_self x xs)
      · exact List.mem_cons_of_mem a (List.mem_cons_of_mem x h')

theorem le_listMax {xs : List ℚ} {y : ℚ} (hy : y ∈ xs) : y ≤ listMax xs := by
  cases xs with
  | nil => cases hy
  | cons x xs =>
      rcases List.mem_cons.mp hy with h | h
      · exact h ▸ foldl_max_le_init xs x
      · exact foldl_max_le_mem x h

theorem listMax_le {xs : List ℚ} {b : ℚ} (hne : xs ≠ [])
    (h : ∀ y ∈ xs, y ≤ b) : listMax xs ≤ b := by
  cases xs with
  | nil => exact absurd rfl hne
  | cons x xs =>
      exact foldl_max_le x (h x (List.mem_cons_self x xs))
        (fun y hy => h y (List.mem_cons_of_mem x hy))

theorem listMax_mem {xs : List ℚ} (hne : xs ≠ []) : listMax xs ∈ xs := by
  cases xs with
  | nil => exact absurd rfl hne
  | cons x xs => exact foldl_max_mem xs x

theorem listMin_le_listMax {xs : List ℚ} (hne : xs ≠ []) :
    listMin xs ≤ listMax xs :=
  le_trans (listMin_le (listMax_mem hne)) le_rfl

/-- If `l.getD i none` yields a value, the index is in range. -/
theorem getD_some_lt {α : Type} {l : List (Option α)} {i : ℕ} {a : α}
    (h : l.getD i none = some a) : i < l.length := by
  by_contra hlt
  have hge : l.length ≤ i := Nat.le_of_not_lt hlt
  rw [List.getD_eq_getElem?_getD, List.getElem?_eq_none hge] at h
  simp at h

/-! ### choparr (sorc/obsio/sonde/hsa.py, lines 133-162; duplicated in
tempdrop_read.py, lines 318-326)

`vararr = vararr[::1][::-1][1::]`: copy, reverse, drop the first element. -/

def choparr {α : Type} (vararr : List α) : List α :=
  vararr.reverse.drop 1

theorem choparr_length {α : Type} (l : List α) :
    (choparr l).length = l.length - 1 := by
  simp [choparr]

/-- C8: for every input array of length N, `choparr` returns an array of
length N−1 whose elements are the original array's elements at indices
0..N−2 in reverse order (reverse the array, then drop the new first
element, which is the original last element). -/
theorem choparr_spec {α : Type} (vararr : List α) (d : α) :
    (choparr vararr).length = vararr.length - 1 ∧
    ∀ i, i < vararr.length - 1 →
      (choparr vararr).getD i d = vararr.getD (vararr.length - 2 - i) d := by
  refine ⟨choparr_length vararr, fun i hi => ?_⟩
  have h1 : 1 + i < vararr.length := by omega
  rw [List.getD_eq_getElem?_getD, List.getD_eq_getElem?_getD, choparr,
    List.getElem?_drop, List.getElem?_reverse h1]
  have : vararr.length - 1 - (1 + i) = vararr.length - 2 - i := by omega
  rw [this]

/-- Witness for C8 at a concrete input: `choparr [10, 20, 30] = [20, 10]`. -/
theorem choparr_spec_witness :
    (choparr ([10, 20, 30] : List ℤ)).length = 2 ∧
    (choparr ([10, 20, 30] : List ℤ)).getD 0 0 = 20 := by
  have h := choparr_spec ([10, 20, 30] : List ℤ) 0
  exact ⟨h.1, (h.2 0 (by decide)).trans (by decide)⟩

/-! ### NaN-propagating binary lift

numpy / `statistics.mean` arithmetic on floats propagates NaN. -/

def liftNan2 (f : ℚ → ℚ → ℚ) : Option ℚ → Option ℚ → Option ℚ
  | some a, some b => some (f a b)
  | _, _ => none

/-! ### layer_mean (sorc/obsio/sonde/hsa.py, lines 286-320; duplicated in
tempdrop_read.py, lines 154-167)

`lymnarr = numpy.empty(shape)`; for `idx` in `1..N-1`:
`lymnarr[idx-1] = statistics.mean([vararr[idx], vararr[idx-1]])`.
The entry at index N−1 is never assigned and keeps whatever garbage
`numpy.empty` produced; it is modelled by the arbitrary `junk` argument. -/

def layer_mean (junk : Option ℚ) (vararr : List (Option ℚ)) :
    List (Option ℚ) :=
  (List.range vararr.length).map (fun pidx =>
    if pidx + 1 < vararr.length then
      liftNan2 (fun a b => (a + b) / 2)
        (vararr.getD (pidx + 1) none) (vararr.getD pidx none)
    else junk)

theorem layer_mean_length (junk : Option ℚ) (v : List (Option ℚ)) :
    (layer_mean junk v).length = v.length := by
  simp [layer_mean]

theorem layer_mean_getD (junk : Option ℚ) (v : List (Option ℚ)) {j : ℕ}
    (hj : j < v.length) :
    (layer_mean junk v).getD j none =
      if j + 1 < v.length then
        liftNan2 (fun a b => (a + b) / 2) (v.getD (j + 1) none) (v.getD j none)
      else junk := by
  rw [layer_mean, List.getD_eq_getElem?_getD, List.getElem?_map,
    List.getElem?_range hj]
  rfl

/-- C9: for every input array `v` of length N ≥ 1, `layer_mean v` has
length N, and for every index j in 0..N−2 the output at j is the
arithmetic mean of `v[j]` and `v[j+1]`; the entry at index N−1 is the
uninitialised `numpy.empty` garbage (`junk`), carrying no meaningful
value. -/
theorem layer_mean_spec (junk : Option ℚ) (v : List (Option ℚ)) :
    (layer_mean junk v).length = v.length ∧
    (∀ j a b, v.getD j none = some a → v.getD (j + 1) none = some b →
      (layer_mean junk v).getD j none = some ((a + b) / 2)) ∧
    (v.length ≠ 0 → (layer_mean junk v).getD (v.length - 1) none = junk) := by
  refine ⟨layer_mean_length junk v, fun j a b ha hb => ?_, fun hne => ?_⟩
  · have hj1 : j + 1 < v.length := getD_some_lt hb
    have hj : j < v.length := Nat.lt_of_succ_lt hj1
    rw [layer_mean_getD junk v hj, if_pos hj1, ha, hb]
    simp [liftNan2]
    ring
  · have hlt : v.length - 1 < v.length := by omega
    rw [layer_mean_getD junk v hlt, if_neg (by omega)]

/-- Witness for C9 at a concrete input:
`layer_mean none [some 1, some 3] = [some 2, none]`. -/
theorem layer_mean_spec_witness :
    (layer_mean none [some 1, some 3]).length = 2 ∧
    (layer_mean none [some 1, some 3]).getD 0 none = some 2 := by
  have h := layer_mean_spec none [some 1, some 3]
  refine ⟨h.1, ?_⟩
  have h2 := h.2.1 0 1 3 (by decide) (by decide)
  exact h2.trans (by norm_num)

/-! ### fallrate (sorc/obsio/sonde/advect.py, lines 205-249; duplicated in
tempdrop_read.py, lines 137-152)

`flrtarr = numpy.zeros(len(avgp) + 1)`; for `idx` in `1..len(avgp)`:
`flrtarr[idx] = gsndfall2(pr=avgp[idx], te=avgt[idx], bad=True, sfcp=psfc,
mbps=True)` inside a `try/except IndexError: pass`.  At `idx = len(avgp)`
the argument `avgp[idx]` raises IndexError before `gsndfall2` is invoked,
so the entry keeps its zero; index 0 is never assigned.  `gsndfall2`
(module `obsio.sonde.aoml`, not among the sources; the spec treats the
empirical fall-rate as an opaque external function) is the opaque
parameter `g`. -/

def fallrate (g : Option ℚ → Option ℚ → Option ℚ → Option ℚ)
    (avgp avgt : List (Option ℚ)) (psfc : Option ℚ) : List (Option ℚ) :=
  (List.range (avgp.length + 1)).map (fun idx =>
    if idx = 0 then some 0
    else if idx < avgp.length ∧ idx < avgt.length then
      g (avgp.getD idx none) (avgt.getD idx none) psfc
    else some 0)

theorem fallrate_getD (g : Option ℚ → Option ℚ → Option ℚ → Option ℚ)
    (avgp avgt : List (Option ℚ)) (psfc : Option ℚ) {idx : ℕ}
    (h : idx < avgp.length + 1) :
    (fallrate g avgp avgt psfc).getD idx none =
      if idx = 0 then some 0
      else if idx < avgp.length ∧ idx < avgt.length then
        g (avgp.getD idx none) (avgt.getD idx none) psfc
      else some 0 := by
  rw [fallrate, List.getD_eq_getElem?_getD, List.getElem?_map,
    List.getElem?_range h]
  rfl

/-- C10: for layer arrays `avgp`, `avgt` of equal length m,
`fallrate avgp avgt psfc` has length m+1, its first entry (index 0) and
its last entry (index m) are both 0.0 — the empirical fall-rate function
is never evaluated there (index m raises an IndexError that is silently
swallowed, leaving the zero) — while every interior entry 1 ≤ i ≤ m−1 is
the fall-rate function applied to `avgp[i]`, `avgt[i]`, `psfc`. -/
theorem fallrate_spec (g : Option ℚ → Option ℚ → Option ℚ → Option ℚ)
    (avgp avgt : List (Option ℚ)) (psfc : Option ℚ)
    (hlen : avgp.length = avgt.length) :
    (fallrate g avgp avgt psfc).length = avgp.length + 1 ∧
    (fallrate g avgp avgt psfc).getD 0 none = some 0 ∧
    (fallrate g avgp avgt psfc).getD avgp.length none = some 0 ∧
    ∀ i, 1 ≤ i → i < avgp.length →
      (fallrate g avgp avgt psfc).getD i none =
        g (avgp.getD i none) (avgt.getD i none) psfc := by
  refine ⟨by simp [fallrate], ?_, ?_, fun i h1 h2 => ?_⟩
  · rw [fallrate_getD g avgp avgt psfc (by omega), if_pos rfl]
  · rw [fallrate_getD g avgp avgt psfc (by omega)]
    rcases Nat.eq_zero_or_pos avgp.length with h | h
    · rw [h]; simp
    · rw [if_neg (by omega), if_neg (by omega)]
  · rw [fallrate_getD g avgp avgt psfc (by omega), if_neg (by omega),
      if_pos ⟨h2, by omega⟩]

/-- Witness for C10 at a concrete input: with a constant external
fall-rate function, `fallrate [some 1, some 2] [some 3, some 4]` is
`[some 0, some 5, some 0]`. -/
theorem fallrate_spec_witness :
    (fallrate (fun _ _ _ => some 5) [some 1, some 2] [some 3, some 4]
        (some 1000)).length = 3 ∧
    (fallrate (fun _ _ _ => some 5) [some 1, some 2] [some 3, some 4]
        (some 1000)).getD 0 none = some 0 ∧
    (fallrate (fun _ _ _ => some 5) [some 1, some 2] [some 3, some 4]
        (some 1000)).getD 2 none = some 0 ∧
    (fallrate (fun _ _ _ => some 5) [some 1, some 2] [some 3, some 4]
        (some 1000)).getD 1 none = some 5 := by
  have h := fallrate_spec (fun _ _ _ => some 5) [some 1, some 2]
    [some 3, some 4] (some 1000) (by decide)
  exact ⟨h.1, h.2.1, h.2.2.1, h.2.2.2 1 (by decide) (by decide)⟩

/-! ### NpVal: numpy float64 special values

numpy float64 division by zero does not raise; it produces ±Inf (or NaN
for 0/0) with only a RuntimeWarning.  `NpVal` models a numpy scalar that
may be finite, ±Inf, or NaN. -/

inductive NpVal where
  | fin (q : ℚ)
  | inf
  | ninf
  | nan
deriving DecidableEq

/-- IEEE-754 addition on `NpVal` (used by Python's `sum`). -/
def npAdd : NpVal → NpVal → NpVal
  | NpVal.fin a, NpVal.fin b => NpVal.fin (a + b)
  | NpVal.nan, _ => NpVal.nan
  | _, NpVal.nan => NpVal.nan
  | NpVal.inf, NpVal.ninf => NpVal.nan
  | NpVal.ninf, NpVal.inf => NpVal.nan
  | NpVal.inf, _ => NpVal.inf
  | _, NpVal.inf => NpVal.inf
  | NpVal.ninf, _ => NpVal.ninf
  | _, NpVal.ninf => NpVal.ninf

/-- numpy float64 division of two finite values: silent ±Inf / NaN on a
zero divisor instead of an exception. -/
def npDivFin (a b : ℚ) : NpVal :=
  if b = 0 then
    (if a = 0 then NpVal.nan else if 0 < a then NpVal.inf else NpVal.ninf)
  else NpVal.fin (a / b)

/-- Python `sum` over a list of numpy scalars (initial value `0`). -/
def npSum (l : List NpVal) : NpVal :=
  l.foldl npAdd (NpVal.fin 0)

/-- Recover the list of finite values, or `none` if any entry is Inf/NaN
(the datetime formatting of a non-finite offset raises). -/
def seqFin : List NpVal → Option (List ℚ)
  | [] => some []
  | NpVal.fin q :: rest => (seqFin rest).map (fun l => q :: l)
  | _ => none

theorem seqFin_length {l : List NpVal} {qs : List ℚ}
    (h : seqFin l = some qs) : qs.length = l.length := by
  induction l generalizing qs with
  | nil =>
      rw [seqFin] at h
      injection h with h
      rw [← h]
      rfl
  | cons x rest ih =>
      cases x with
      | fin q =>
          rw [seqFin] at h
          cases hrest : seqFin rest with
          | none => rw [hrest] at h; simp at h
          | some l' =>
              rw [hrest] at h
              rw [Option.map_some'] at h
              injection h with h
              rw [← h]
              simp [ih hrest]
      | inf => exact Option.noConfusion h
      | ninf => exact Option.noConfusion h
      | nan => exact Option.noConfusion h

theorem npAdd_fin (a b : ℚ) : npAdd (NpVal.fin a) (NpVal.fin b) = NpVal.fin (a + b) := rfl

/-- A fold of `npAdd` over finite values stays finite. -/
theorem npSum_fin {l : List NpVal} {qs : List ℚ} (h : seqFin l = some qs) :
    npSum l = NpVal.fin (qs.foldl (· + ·) 0) := by
  suffices hgen : ∀ (l : List NpVal) (qs : List ℚ) (a : ℚ), seqFin l = some qs →
      l.foldl npAdd (NpVal.fin a) = NpVal.fin (qs.foldl (· + ·) a) by
    exact hgen l qs 0 h
  intro l
  induction l with
  | nil =>
      intro qs a h
      rw [seqFin] at h
      injection h with h
      rw [← h]
      rfl
  | cons x rest ih =>
      intro qs a h
      cases x with
      | fin q =>
          rw [seqFin] at h
          cases hrest : seqFin rest with
          | none => rw [hrest] at h; simp at h
          | some l' =>
              rw [hrest] at h
              rw [Option.map_some'] at h
              injection h with h
              rw [← h]
              simp only [List.foldl_cons, npAdd_fin]
              exact ih l' (a + q) hrest
      | inf => exact Option.noConfusion h
      | ninf => exact Option.noConfusion h
      | nan => exact Option.noConfusion h

/-! ### interp_hsa (sorc/obsio/sonde/advect/interp.py, lines 49-113;
duplicated as advect.py interp_hsa and as TEMPDROP.interp in
tempdrop_read.py, lines 76-135)

`idx_list = numpy.where(~numpy.isnan(varin))[0]`; if at most one valid
sample, the input is returned unchanged; otherwise a 1-D linear
interpolant over the valid (level, value) pairs (scipy `interp1d` with
`kind="linear", fill_value="extrapolate"`, which sorts the sample
abscissae) fills each NaN position, evaluated at that position's level.
NaN entries of `zarr` at a valid position would feed NaN into the scipy
interpolant; that corner is modelled coarsely (as the value 0) — no
theorem below depends on an interpolated value at such an input. -/

def nonNanIdx (varin : List (Option ℚ)) : List ℕ :=
  (List.range varin.length).filter (fun i => (varin.getD i none).isSome)

/-- Linear interpolation between two sample points. -/
def lininterpPt (p q : ℚ × ℚ) (x : ℚ) : ℚ :=
  p.2 + (x - p.1) * (q.2 - p.2) / (q.1 - p.1)

/-- Piecewise-linear evaluation over samples sorted by abscissa, with
linear extrapolation from the first/last segment beyond the data range. -/
def interpSegs : List (ℚ × ℚ) → ℚ → ℚ
  | [], _ => 0
  | [p], _ => p.2
  | p :: q :: rest, x =>
      if x ≤ q.1 ∨ rest = [] then lininterpPt p q x else interpSegs (q :: rest) x

/-- scipy `interp1d(lev, var, kind="linear", fill_value="extrapolate")`
evaluated at `x`: samples are sorted by abscissa first. -/
def interp1dPts (pts : List (ℚ × ℚ)) (x : ℚ) : ℚ :=
  interpSegs (List.insertionSort (fun a b => a.1 ≤ b.1) pts) x

/-- `varout = varin[:]` then `varout[idx] = interp(zarr[idx])` at NaN
positions only. -/
def fillNan (fill : ℕ → ℚ) (i : ℕ) (x : Option ℚ) : Option ℚ :=
  match x with
  | some v => some v
  | none => some (fill i)

def interp_hsa (varin zarr : List (Option ℚ)) : List (Option ℚ) :=
  if (nonNanIdx varin).length ≤ 1 then varin
  else
    let pts := (nonNanIdx varin).map
      (fun i => ((zarr.getD i none).getD 0, (varin.getD i none).getD 0))
    varin.mapIdx (fillNan (fun i => interp1dPts pts ((zarr.getD i none).getD 0)))

theorem mapIdx_fillNan_of_no_none (fill : ℕ → ℚ) (l : List (Option ℚ))
    (h : ∀ x ∈ l, x ≠ none) : l.mapIdx (fillNan fill) = l := by
  induction l generalizing fill with
  | nil => rfl
  | cons x xs ih =>
      rw [List.mapIdx_cons]
      have hx : x ≠ none := h x (List.mem_cons_self x xs)
      cases x with
      | none => exact absurd rfl hx
      | some v =>
          rw [show fillNan fill 0 (some v) = some v from rfl]
          have hfn : List.mapIdx (fun i => fillNan fill (i + 1)) xs
              = List.mapIdx (fillNan (fun i => fill (i + 1))) xs := rfl
          rw [hfn, ih (fun i => fill (i + 1))
            (fun y hy => h y (List.mem_cons_of_mem _ hy))]

theorem nonNanIdx_length_eq_countP (l : List (Option ℚ)) :
    (nonNanIdx l).length = l.countP (fun x => x.isSome) := by
  rw [nonNanIdx]
  induction l with
  | nil => rfl
  | cons x xs ih =>
      have hP : ((fun i => (((x :: xs).getD i none).isSome : Bool)) ∘ Nat.succ)
          = (fun i => ((xs.getD i none).isSome : Bool)) := rfl
      rw [List.length_cons, List.range_succ_eq_map, List.filter_cons,
        List.filter_map, hP, List.countP_cons,
        show ((x :: xs).getD 0 none) = x from rfl]
      by_cases hx : x.isSome = true
      · rw [if_pos hx, if_pos hx]
        simp only [List.length_cons, List.length_map, ih]
      · rw [if_neg hx, if_neg hx]
        simp only [List.length_map, ih]
        omega

theorem interp_hsa_length (varin zarr : List (Option ℚ)) :
    (interp_hsa varin zarr).length = varin.length := by
  rw [interp_hsa]
  by_cases h : (nonNanIdx varin).length ≤ 1
  · rw [if_pos h]
  · rw [if_neg h]
    simp

/-- C7: the interpolator's identity cases.  An input array with no NaN
entries is returned unchanged (every output entry equals the
corresponding input entry), and an input array with zero or one valid
(non-NaN) samples is returned unmodified with its NaN entries intact. -/
theorem interp_hsa_spec (varin zarr : List (Option ℚ)) :
    ((∀ x ∈ varin, x ≠ none) → interp_hsa varin zarr = varin) ∧
    (varin.countP (fun x => x.isSome) ≤ 1 → interp_hsa varin zarr = varin) := by
  constructor
  · intro h
    rw [interp_hsa]
    by_cases hc : (nonNanIdx varin).length ≤ 1
    · rw [if_pos hc]
    · rw [if_neg hc]
      exact mapIdx_fillNan_of_no_none _ varin h
  · intro h
    rw [interp_hsa, if_pos (by rw [nonNanIdx_length_eq_countP]; exact h)]

/-- Witness for C7 at concrete inputs: a NaN-free array and an array with
a single valid sample both pass through unchanged. -/
theorem interp_hsa_spec_witness :
    interp_hsa [some 5, some 7] [some 850, some 700] = [some 5, some 7] ∧
    interp_hsa [none, some 7, none] [some 850, some 700, some 500] =
      [none, some 7, none] := by
  refine ⟨(interp_hsa_spec [some 5, some 7] [some 850, some 700]).1 ?_,
    (interp_hsa_spec [none, some 7, none]
      [some 850, some 700, some 500]).2 ?_⟩
  · intro x hx
    fin_cases hx <;> simp
  · decide

/-! ### obslocation (sorc/obsio/sonde/hsa/location.py, lines 43-85;
duplicated in hsa.py, lines 383-425, and tempdrop_read.py, lines 597-641)

`lat_scale = -1.0` if `"s" in locstr.lower()`, `lon_scale = -1.0` if
`"e" in locstr.lower()`; `locstr = re.sub("[a-zA-Z]", " ", locstr)`;
`lat = lat_scale * float(locstr.split()[0]) / 100.0`;
`lon = lon_scale * float(locstr.split()[1]) / 100.0`.
Python `float(...)` is modelled for integral digit tokens (TEMPDROP
location groups are integers in hundredths of a degree); any other token
— and fewer than two tokens — is a parse failure (`none`), matching the
ValueError/IndexError that the callers catch. -/

def digitChars : List Char := ['0', '1', '2', '3', '4', '5', '6', '7', '8', '9']

def digitsVal (s : List Char) : ℕ :=
  s.foldl (fun n c => 10 * n + (c.toNat - 48)) 0

def pyFloatTok (s : List Char) : Option ℚ :=
  if !s.isEmpty && s.all (fun c => decide (c ∈ digitChars)) then
    some ((digitsVal s : ℕ) : ℚ)
  else none

/-- `re.sub("[a-zA-Z]", " ", s)`. -/
def stripAlpha (s : List Char) : List Char :=
  s.map (fun c => if c.isAlpha then ' ' else c)

/-- Python `str.split()`: split on runs of blanks, dropping empty tokens
(the strings at hand contain no other whitespace). -/
def splitWsAux : List Char → List Char → List (List Char)
  | [], acc => if acc.isEmpty then [] else [acc.reverse]
  | c :: rest, acc =>
      if c = ' ' then
        if acc.isEmpty then splitWsAux rest []
        else acc.reverse :: splitWsAux rest []
      else splitWsAux rest (c :: acc)

def splitWs (s : List Char) : List (List Char) :=
  splitWsAux s []

def obslocation (locstr : List Char) : Option (ℚ × ℚ) :=
  let lat_scale : ℚ := if locstr.any (fun c => c.toLower = 's') then -1 else 1
  let lon_scale : ℚ := if locstr.any (fun c => c.toLower = 'e') then -1 else 1
  match splitWs (stripAlpha locstr) with
  | t0 :: t1 :: _ =>
      match pyFloatTok t0, pyFloatTok t1 with
      | some a, some b => some (lat_scale * a / 100, lon_scale * b / 100)
      | _, _ => none
  | _ => none

theorem digit_char_facts {c : Char} (h : c ∈ digitChars) :
    c.toLower ≠ 's' ∧ c.toLower ≠ 'e' ∧ c.isAlpha = false ∧ c ≠ ' ' := by
  fin_cases h <;> exact ⟨by decide, by decide, by decide, by decide⟩

theorem stripAlpha_digits {d : List Char} (hd : ∀ c ∈ d, c ∈ digitChars) :
    stripAlpha d = d := by
  induction d with
  | nil => rfl
  | cons c cs ih =>
      rw [stripAlpha, List.map_cons,
        if_neg (by
          rw [(digit_char_facts (hd c (List.mem_cons_self c cs))).2.2.1]
          exact Bool.false_ne_true)]
      rw [show List.map (fun c => if c.isAlpha then ' ' else c) cs = stripAlpha cs
        from rfl]
      rw [ih (fun c hc => hd c (List.mem_cons_of_mem _ hc))]

theorem splitWsAux_nonblank {d : List Char} (hd : ∀ c ∈ d, c ≠ ' ')
    (rest : List Char) (acc : List Char) :
    splitWsAux (d ++ rest) acc = splitWsAux rest (d.reverse ++ acc) := by
  induction d generalizing acc with
  | nil => simp
  | cons c cs ih =>
      rw [List.cons_append, splitWsAux,
        if_neg (hd c (List.mem_cons_self c cs)),
        ih (fun x hx => hd x (List.mem_cons_of_mem _ hx)) (c :: acc)]
      simp

theorem isEmpty_false_of_ne_nil {α : Type} {l : List α} (h : l ≠ []) :
    l.isEmpty = false := by
  cases l with
  | nil => exact absurd rfl h
  | cons a as => rfl

theorem splitWsAux_nil (acc : List Char) :
    splitWsAux [] acc = if acc.isEmpty then [] else [acc.reverse] := rfl

theorem splitWsAux_blank (rest acc : List Char) :
    splitWsAux (' ' :: rest) acc =
      if acc.isEmpty then splitWsAux rest []
      else acc.reverse :: splitWsAux rest [] := rfl

theorem splitWs_two_tokens {d1 d2 : List Char}
    (h1 : d1 ≠ []) (h2 : d2 ≠ [])
    (hb1 : ∀ c ∈ d1, c ≠ ' ') (hb2 : ∀ c ∈ d2, c ≠ ' ') :
    splitWs (d1 ++ (' ' :: ' ' :: (d2 ++ [' ']))) = [d1, d2] := by
  have hne1 : ¬(d1.reverse.isEmpty = true) := by
    rw [isEmpty_false_of_ne_nil (show d1.reverse ≠ [] by simpa using h1)]
    exact Bool.false_ne_true
  have hne2 : ¬(d2.reverse.isEmpty = true) := by
    rw [isEmpty_false_of_ne_nil (show d2.reverse ≠ [] by simpa using h2)]
    exact Bool.false_ne_true
  rw [splitWs, splitWsAux_nonblank hb1 _ [], List.append_nil,
    splitWsAux_blank, if_neg hne1, List.reverse_reverse,
    splitWsAux_blank, if_pos (show ([] : List Char).isEmpty = true from rfl),
    splitWsAux_nonblank hb2 _ [], List.append_nil,
    splitWsAux_blank, if_neg hne2, List.reverse_reverse,
    splitWsAux_nil, if_pos (show ([] : List Char).isEmpty = true from rfl)]

/-- C5: for a location string made of a digit latitude token followed by a
hemisphere letter N/S, a blank, a digit longitude token and a hemisphere
letter E/W, `obslocation` strips the letters, takes the first numeric
token divided by 100 as the latitude — negated exactly when the string
contains "S" (case-insensitively) — and the second numeric token divided
by 100 as the longitude — negated exactly when the string contains "E".
In particular "123N" yields latitude 1.23, "456S" yields −4.56, "0789W"
yields longitude +7.89 and "0789E" yields −7.89. -/
theorem obslocation_spec (d1 d2 : List Char) (c1 c2 : Char)
    (h1 : d1 ≠ []) (h2 : d2 ≠ [])
    (hd1 : ∀ c ∈ d1, c ∈ digitChars) (hd2 : ∀ c ∈ d2, c ∈ digitChars)
    (hc1 : c1 = 'N' ∨ c1 = 'S') (hc2 : c2 = 'E' ∨ c2 = 'W') :
    obslocation (d1 ++ (c1 :: ' ' :: (d2 ++ [c2]))) =
      some ((if c1 = 'S' then (-1 : ℚ) else 1) * ((digitsVal d1 : ℕ) : ℚ) / 100,
            (if c2 = 'E' then (-1 : ℚ) else 1) * ((digitsVal d2 : ℕ) : ℚ) / 100) := by
  have e1s : d1.any (fun c => decide (c.toLower = 's')) = false := by
    rw [List.any_eq_false]
    intro c hc
    simpa using (digit_char_facts (hd1 c hc)).1
  have e2s : d2.any (fun c => decide (c.toLower = 's')) = false := by
    rw [List.any_eq_false]
    intro c hc
    simpa using (digit_char_facts (hd2 c hc)).1
  have e1e : d1.any (fun c => decide (c.toLower = 'e')) = false := by
    rw [List.any_eq_false]
    intro c hc
    simpa using (digit_char_facts (hd1 c hc)).2.1
  have e2e : d2.any (fun c => decide (c.toLower = 'e')) = false := by
    rw [List.any_eq_false]
    intro c hc
    simpa using (digit_char_facts (hd2 c hc)).2.1
  have hs : ((d1 ++ (c1 :: ' ' :: (d2 ++ [c2]))).any (fun c => c.toLower = 's'))
      = decide (c1 = 'S') := by
    rcases hc1 with h | h <;> rcases hc2 with h' | h' <;> subst h <;> subst h' <;>
      simp only [List.any_append, List.any_cons, List.any_nil, e1s, e2s] <;> decide
  have he : ((d1 ++ (c1 :: ' ' :: (d2 ++ [c2]))).any (fun c => c.toLower = 'e'))
      = decide (c2 = 'E') := by
    rcases hc1 with h | h <;> rcases hc2 with h' | h' <;> subst h <;> subst h' <;>
      simp only [List.any_append, List.any_cons, List.any_nil, e1e, e2e] <;> decide
  have hm1 : List.map (fun c => if c.isAlpha then ' ' else c) d1 = d1 :=
    stripAlpha_digits hd1
  have hm2 : List.map (fun c => if c.isAlpha then ' ' else c) d2 = d2 :=
    stripAlpha_digits hd2
  have ha1 : (if c1.isAlpha then ' ' else c1) = ' ' := by
    rcases hc1 with h | h <;> subst h <;> decide
  have ha2 : (if c2.isAlpha then ' ' else c2) = ' ' := by
    rcases hc2 with h | h <;> subst h <;> decide
  have hstrip : stripAlpha (d1 ++ (c1 :: ' ' :: (d2 ++ [c2])))
      = d1 ++ (' ' :: ' ' :: (d2 ++ [' '])) := by
    rw [stripAlpha, List.map_append, List.map_cons, List.map_cons,
      List.map_append, List.map_cons, List.map_nil, hm1, hm2, ha1, ha2]
    rw [if_neg (by decide : ¬((' ' : Char).isAlpha = true))]
  have hsplit : splitWs (stripAlpha (d1 ++ (c1 :: ' ' :: (d2 ++ [c2])))) = [d1, d2] := by
    rw [hstrip]
    exact splitWs_two_tokens h1 h2
      (fun c hc => (digit_char_facts (hd1 c hc)).2.2.2)
      (fun c hc => (digit_char_facts (hd2 c hc)).2.2.2)
  have htok1 : pyFloatTok d1 = some ((digitsVal d1 : ℕ) : ℚ) := by
    rw [pyFloatTok, if_pos]
    rw [Bool.and_eq_true]
    refine ⟨by simpa using isEmpty_false_of_ne_nil h1, ?_⟩
    rw [List.all_eq_true]
    intro c hc
    simpa using hd1 c hc
  have htok2 : pyFloatTok d2 = some ((digitsVal d2 : ℕ) : ℚ) := by
    rw [pyFloatTok, if_pos]
    rw [Bool.and_eq_true]
    refine ⟨by simpa using isEmpty_false_of_ne_nil h2, ?_⟩
    rw [List.all_eq_true]
    intro c hc
    simpa using hd2 c hc
  rw [obslocation]
  simp only [hs, he, hsplit, htok1, htok2]
  rcases hc1 with h | h <;> rcases hc2 with h' | h' <;> subst h <;> subst h' <;>
    norm_num

/-- Witness for C5 at the concrete input "123N 0789W": latitude 1.23,
longitude +7.89. -/
theorem obslocation_spec_witness :
    obslocation ['1', '2', '3', 'N', ' ', '0', '7', '8', '9', 'W'] =
      some (123 / 100, 789 / 100) := by
  have h := obslocation_spec ['1', '2', '3'] ['0', '7', '8', '9'] 'N' 'W'
    (by decide) (by decide) (by decide) (by decide) (by decide) (by decide)
  have e : (['1', '2', '3'] ++ ('N' :: ' ' :: (['0', '7', '8', '9'] ++ ['W'])))
      = ['1', '2', '3', 'N', ' ', '0', '7', '8', '9', 'W'] := by decide
  rw [e] at h
  rw [h]
  have hv1 : digitsVal ['1', '2', '3'] = 123 := rfl
  have hv2 : digitsVal ['0', '7', '8', '9'] = 789 := rfl
  rw [if_neg (show ¬('N' = 'S') by decide), if_neg (show ¬('W' = 'E') by decide),
    hv1, hv2]
  norm_num

/-! ### __normalize__ (sorc/obsio/sonde/advect.py, lines 92-148; duplicated
as TEMPDROP.normalize in tempdrop_read.py, lines 210-255)

`norma = min(rel, spg)`, `normb = max(rel, spg)` per axis, then each
advected coordinate x is mapped to
`norma + (x - min(xs)) * (normb - norma) / (max(xs) - min(xs))`.
With Python floats a degenerate span (`max(xs) - min(xs) == 0`) raises a
ZeroDivisionError inside the list comprehension, modelled as `none`.
Python `min`/`max` over a list holding NaN is order-dependent garbage;
the model collapses a NaN-containing trajectory to an all-NaN output
(no theorem below concerns that corner). -/

def normalizeAxis (a b : ℚ) (xs : List ℚ) : List ℚ :=
  xs.map (fun x =>
    min a b + (x - listMin xs) * (max a b - min a b) / (listMax xs - listMin xs))

theorem normalizeAxis_length (a b : ℚ) (xs : List ℚ) :
    (normalizeAxis a b xs).length = xs.length := by
  simp [normalizeAxis]

theorem normalizeAxis_min (a b : ℚ) (xs : List ℚ) (hne : xs ≠ [])
    (hsp : listMin xs ≠ listMax xs) :
    listMin (normalizeAxis a b xs) = min a b := by
  have hmM : listMin xs < listMax xs :=
    lt_of_le_of_ne (listMin_le_listMax hne) hsp
  have hpos : (0 : ℚ) < listMax xs - listMin xs := by linarith
  have hfactor : (0 : ℚ) ≤ (max a b - min a b) / (listMax xs - listMin xs) :=
    div_nonneg (by linarith [min_le_max (a := a) (b := b)]) hpos.le
  have hlb : ∀ y ∈ normalizeAxis a b xs, min a b ≤ y := by
    intro y hy
    rw [normalizeAxis, List.mem_map] at hy
    obtain ⟨x, hx, rfl⟩ := hy
    have h1 : (0 : ℚ) ≤ x - listMin xs := by linarith [listMin_le hx]
    have h2 : (0 : ℚ) ≤ (x - listMin xs) * (max a b - min a b) /
        (listMax xs - listMin xs) := by
      rw [mul_div_assoc]
      exact mul_nonneg h1 hfactor
    linarith
  have hmem : min a b ∈ normalizeAxis a b xs := by
    rw [normalizeAxis, List.mem_map]
    refine ⟨listMin xs, listMin_mem hne, ?_⟩
    rw [sub_self, zero_mul, zero_div, add_zero]
  have hne2 : normalizeAxis a b xs ≠ [] := by
    rw [normalizeAxis]
    simpa using hne
  exact le_antisymm (listMin_le hmem) (le_listMin hne2 hlb)

theorem normalizeAxis_max (a b : ℚ) (xs : List ℚ) (hne : xs ≠ [])
    (hsp : listMin xs ≠ listMax xs) :
    listMax (normalizeAxis a b xs) = max a b := by
  have hmM : listMin xs < listMax xs :=
    lt_of_le_of_ne (listMin_le_listMax hne) hsp
  have hpos : (0 : ℚ) < listMax xs - listMin xs := by linarith
  have hcancel : (listMax xs - listMin xs) * (max a b - min a b) /
      (listMax xs - listMin xs) = max a b - min a b := by
    rw [mul_comm, mul_div_assoc, div_self hpos.ne', mul_one]
  have hub : ∀ y ∈ normalizeAxis a b xs, y ≤ max a b := by
    intro y hy
    rw [normalizeAxis, List.mem_map] at hy
    obtain ⟨x, hx, rfl⟩ := hy
    have h1 : x - listMin xs ≤ listMax xs - listMin xs := by
      linarith [le_listMax hx]
    have h2 : (0 : ℚ) ≤ max a b - min a b := by
      linarith [min_le_max (a := a) (b := b)]
    have h3 : (x - listMin xs) * (max a b - min a b) ≤
        (listMax xs - listMin xs) * (max a b - min a b) :=
      mul_le_mul_of_nonneg_right h1 h2
    have h4 := (div_le_div_iff_of_pos_right hpos).mpr h3
    linarith [h4, hcancel, min_le_max (a := a) (b := b)]
  have hmem : max a b ∈ normalizeAxis a b xs := by
    rw [normalizeAxis, List.mem_map]
    refine ⟨listMax xs, listMax_mem hne, ?_⟩
    rw [hcancel]
    ring
  have hne2 : normalizeAxis a b xs ≠ [] := by
    rw [normalizeAxis]
    simpa using hne
  exact le_antisymm (listMax_le hne2 hub) (le_listMax hmem)

/-- Sequence a list of possibly-NaN values: `some` of the underlying list
iff no entry is NaN. -/
def seqOpt : List (Option ℚ) → Option (List ℚ)
  | [] => some []
  | some q :: rest => (seqOpt rest).map (fun l => q :: l)
  | none :: _ => none

theorem seqOpt_map_some (l : List ℚ) : seqOpt (l.map some) = some l := by
  induction l with
  | nil => rfl
  | cons x xs ih =>
      rw [List.map_cons, seqOpt, ih, Option.map_some']

theorem seqOpt_some_length {xs : List (Option ℚ)} {ys : List ℚ}
    (h : seqOpt xs = some ys) : ys.length = xs.length := by
  induction xs generalizing ys with
  | nil =>
      rw [seqOpt] at h
      injection h with h
      rw [← h]
      rfl
  | cons x rest ih =>
      cases x with
      | some q =>
          rw [seqOpt] at h
          cases hrest : seqOpt rest with
          | none => rw [hrest] at h; simp at h
          | some l' =>
              rw [hrest] at h
              rw [Option.map_some'] at h
              injection h with h
              rw [← h]
              simp [ih hrest]
      | none => exact Option.noConfusion h

/-- One axis of `__normalize__`: `none` models the ZeroDivisionError on a
degenerate (zero) span. -/
def normAxisOpt (a b : ℚ) (xs : List (Option ℚ)) : Option (List (Option ℚ)) :=
  match seqOpt xs with
  | some ys =>
      if listMax ys - listMin ys = 0 then none
      else some ((normalizeAxis a b ys).map some)
  | none => some (xs.map (fun _ => none))

theorem normAxisOpt_length {a b : ℚ} {xs : List (Option ℚ)}
    {l : List (Option ℚ)} (h : normAxisOpt a b xs = some l) :
    l.length = xs.length := by
  rw [normAxisOpt] at h
  cases hseq : seqOpt xs with
  | some ys =>
      rw [hseq] at h
      have h' : (if listMax ys - listMin ys = 0 then none
          else some ((normalizeAxis a b ys).map some)) = some l := h
      by_cases hsp : listMax ys - listMin ys = 0
      · rw [if_pos hsp] at h'
        exact Option.noConfusion h'
      · rw [if_neg hsp] at h'
        injection h' with h'
        rw [← h', List.length_map, normalizeAxis_length,
          seqOpt_some_length hseq]
  | none =>
      rw [hseq] at h
      have h' : some (xs.map (fun _ => (none : Option ℚ))) = some l := h
      injection h' with h'
      rw [← h', List.length_map]

/-! ### The observation context (SimpleNamespace attribute groups of
tempdrop_read.py) and the pipeline stages that the claims quantify over.

Stage functions take the external collaborators as opaque parameters:
`g`     — gsndfall2 (pr, te, sfcp ↦ fall rate; NaN-able),
`at2`   — 90.0 + numpy.degrees(numpy.arctan2 u v),- composed heading map,
`sq`    — numpy.sqrt,
`brng`  — diags.grids.bearing_geoloc,
`hv`    — diags.grids.haversine,
`fmtD`  — datestrupdate "%y%m%d." composed with the float() parse done by
          the HSA writer,
`fmtT`  — datestrupdate "%H%M" composed with the int() parse. -/

structure Locate where
  rel : ℚ × ℚ
  spg : ℚ × ℚ
deriving DecidableEq

structure DateInfo where
  yymmdd0 : ℚ
  hhmm0 : ℤ
deriving DecidableEq

structure Interp where
  hgt : List (Option ℚ)
  rh : List (Option ℚ)
  temp : List (Option ℚ)
  uwnd : List (Option ℚ)
  vwnd : List (Option ℚ)
  pres : List (Option ℚ)
  flag : List (List Char)
  psfc : Option ℚ
  fallrate : List (Option ℚ) := []
  heading : List (Option ℚ) := []
  dist : List (Option ℚ) := []
  lat : List (Option ℚ) := []
  lon : List (Option ℚ) := []
  offset_seconds : List NpVal := []
  yymmdd : List ℚ := []
  hhmm : List ℤ := []
deriving DecidableEq

structure Layer where
  avgp : List (Option ℚ) := []
  avgt : List (Option ℚ) := []
  avgu : List (Option ℚ) := []
  avgv : List (Option ℚ) := []
deriving DecidableEq

structure Tempdrop where
  filepath : List Char
  dateinfo : DateInfo
  locate : Locate
  interp : Interp
  layer : Layer := {}
deriving DecidableEq

/-- One decoded level record of `frmtsonde` (Profile Builder output):
numeric fields with the −99.0 sentinel already replaced by NaN, plus the
level-type flag string. -/
structure SondeRec where
  hgt : Option ℚ
  pres : Option ℚ
  rh : Option ℚ
  temp : Option ℚ
  uwnd : Option ℚ
  vwnd : Option ℚ
  flag : List Char
deriving DecidableEq

instance : Inhabited SondeRec :=
  ⟨⟨none, none, none, none, none, none, []⟩⟩

/-- `psfc_flag = 1070.0` (TEMPDROP constructor). -/
def psfc_flag : ℚ := 1070

/-- `validlevs_list = ["manl", "sigl"]` (TEMPDROP constructor). -/
def validlevs_list : List (List Char) := ["manl".toList, "sigl".toList]

/-- The working level set of §4.4: indices whose pressure is strictly
below the surface sentinel and whose lowercased flag is a valid level
type (`interpsonde`, tempdrop_read.py lines 510-512). -/
def selectIdx (recs : List SondeRec) : List ℕ :=
  (List.range recs.length).filter (fun i =>
    match (recs.getD i default).pres with
    | some p =>
        decide (p < psfc_flag) &&
        decide ((recs.getD i default).flag.map Char.toLower ∈ validlevs_list)
    | none => false)

/-- `numpy.nanmax`: maximum over the non-NaN entries, NaN when none. -/
def nanmax (l : List (Option ℚ)) : Option ℚ :=
  match l.filterMap id with
  | [] => none
  | x :: xs => some (xs.foldl max x)

/-- sfcpres (sorc/obsio/sonde/hsa.py, lines 431-476; duplicated in
tempdrop_read.py, lines 643-682): the height at the first level whose
pressure equals the sentinel, else `nanmax` of all level pressures. -/
def sfcpres (pres hgt : List (Option ℚ)) : Option ℚ :=
  match (List.range pres.length).filter
      (fun i => decide (pres.getD i none = some psfc_flag)) with
  | [] => nanmax pres
  | i :: _ => hgt.getD i none

/-- interpsonde (tempdrop_read.py, lines 468-535): restrict every
variable to the working level set and fill NaN gaps by interpolation
against the selected (pre-interpolation) pressures. -/
def interpsonde (recs : List SondeRec) : Interp :=
  let idxs := selectIdx recs
  let presSel := idxs.map (fun i => (recs.getD i default).pres)
  { hgt := interp_hsa (idxs.map (fun i => (recs.getD i default).hgt)) presSel
    rh := interp_hsa (idxs.map (fun i => (recs.getD i default).rh)) presSel
    temp := interp_hsa (idxs.map (fun i => (recs.getD i default).temp)) presSel
    uwnd := interp_hsa (idxs.map (fun i => (recs.getD i default).uwnd)) presSel
    vwnd := interp_hsa (idxs.map (fun i => (recs.getD i default).vwnd)) presSel
    pres := interp_hsa presSel presSel
    flag := idxs.map (fun i => (recs.getD i default).flag)
    psfc := sfcpres (recs.map (fun r => r.pres)) (recs.map (fun r => r.hgt)) }

/-- correct (tempdrop_read.py, lines 328-343): layer means (reindexed by
`choparr`), the empirical fall rate on the layers, and its
re-interpolation onto the level grid. -/
def correct (g : Option ℚ → Option ℚ → Option ℚ → Option ℚ)
    (junk : Option ℚ) (ctx : Tempdrop) : Tempdrop :=
  let avgp := choparr (layer_mean junk ctx.interp.pres)
  let avgt := choparr (layer_mean junk ctx.interp.temp)
  let avgu := choparr (layer_mean junk ctx.interp.uwnd)
  let avgv := choparr (layer_mean junk ctx.interp.vwnd)
  let flrt := fallrate g avgp avgt ctx.interp.psfc
  { ctx with
    layer := { avgp := avgp, avgt := avgt, avgu := avgu, avgv := avgv }
    interp := { ctx.interp with fallrate := interp_hsa flrt ctx.interp.pres } }

/-- __normalize__ (advect.py, lines 92-148) at the context level. -/
def __normalize__ (ctx : Tempdrop) (xlat_list xlon_list : List (Option ℚ)) :
    Option Tempdrop :=
  match normAxisOpt ctx.locate.rel.1 ctx.locate.spg.1 xlat_list,
        normAxisOpt ctx.locate.rel.2 ctx.locate.spg.2 xlon_list with
  | some lats, some lons =>
      some { ctx with interp := { ctx.interp with lat := lats, lon := lons } }
  | _, _ => none

/-- One step of the trajectory recurrence (advect.py, lines 186-194):
`bearing_geoloc(loc, dist, heading)`; a NaN input contaminates the
position from that level downward. -/
def stepPos (brng : ℚ × ℚ → ℚ → ℚ → ℚ × ℚ)
    (pos : Option ℚ × Option ℚ) (dh : Option ℚ × Option ℚ) :
    Option ℚ × Option ℚ :=
  match pos.1, pos.2, dh.1, dh.2 with
  | some a, some b, some d, some h =>
      (some (brng (a, b) d h).1, some (brng (a, b) d h).2)
  | _, _, _, _ => (none, none)

def advectPath (brng : ℚ × ℚ → ℚ → ℚ → ℚ × ℚ) :
    Option ℚ × Option ℚ → List (Option ℚ × Option ℚ) →
    List (Option ℚ × Option ℚ)
  | _, [] => []
  | pos, dh :: rest =>
      let p := stepPos brng pos dh
      p :: advectPath brng p rest

/-- advect (advect.py, lines 154-199; TEMPDROP.advect, tempdrop_read.py
lines 188-208): integrate the trajectory from the release point over the
per-level (dist, heading) pairs, then normalize against the
release/splash anchors. -/
def advect (brng : ℚ × ℚ → ℚ → ℚ → ℚ × ℚ) (ctx : Tempdrop) :
    Option Tempdrop :=
  let start := (some ctx.locate.rel.1, some ctx.locate.rel.2)
  let path := start :: advectPath brng start (ctx.interp.dist.zip ctx.interp.heading)
  __normalize__ ctx (path.map (fun p => p.1)) (path.map (fun p => p.2))

/-- `heading = 90.0 + degrees(arctan2(uwnd, vwnd))` (tempdrop_read.py,
lines 308-310); `at2` is the opaque degrees-of-arctangent composite. -/
def driftHeading (at2 : ℚ → ℚ → ℚ) (ctx1 : Tempdrop) : List (Option ℚ) :=
  List.zipWith (liftNan2 (fun u v => 90 + at2 u v))
    ctx1.interp.uwnd ctx1.interp.vwnd

/-- `dist = sqrt(uwnd² + vwnd²) * fallrate` (tempdrop_read.py,
lines 311-313). -/
def driftDist (sq : ℚ → ℚ) (ctx1 : Tempdrop) : List (Option ℚ) :=
  List.zipWith (liftNan2 (fun s f => s * f))
    (List.zipWith (liftNan2 (fun u v => sq (u * u + v * v)))
      ctx1.interp.uwnd ctx1.interp.vwnd)
    ctx1.interp.fallrate

/-- The context state after `correct` plus the heading/dist assignments
inside `drift` (tempdrop_read.py, lines 305-313). -/
def driftCtx (g : Option ℚ → Option ℚ → Option ℚ → Option ℚ)
    (junk : Option ℚ) (at2 : ℚ → ℚ → ℚ) (sq : ℚ → ℚ) (ctx : Tempdrop) :
    Tempdrop :=
  let ctx1 := correct g junk ctx
  { ctx1 with interp := { ctx1.interp with
      heading := driftHeading at2 ctx1, dist := driftDist sq ctx1 } }

/-- drift (tempdrop_read.py, lines 279-316): `correct`, then the
heading/dist assignments, then `advect`. -/
def drift (g : Option ℚ → Option ℚ → Option ℚ → Option ℚ)
    (junk : Option ℚ) (at2 : ℚ → ℚ → ℚ) (sq : ℚ → ℚ)
    (brng : ℚ × ℚ → ℚ → ℚ → ℚ × ℚ) (ctx : Tempdrop) : Option Tempdrop :=
  advect brng (driftCtx g junk at2 sq ctx)

/-- The offset-seconds loop of update_time
(sorc/obsio/sonde/advect/update_time.py, lines 98-106; duplicated in
advect.py lines 357-365 and tempdrop_read.py lines 732-740):
`offset_seconds = [0]`, then for each level `idx ≥ 1` append
`haversine(pos[idx-1], pos[idx]) / sqrt(u[idx-1]² + v[idx-1]²)` —
a numpy float64 division with no zero-velocity guard. -/
def offsetSeconds (hv : ℚ × ℚ → ℚ × ℚ → ℚ) (sq : ℚ → ℚ)
    (lat lon uwnd vwnd : List (Option ℚ)) : List NpVal :=
  NpVal.fin 0 :: (List.range (lat.length - 1)).map (fun j =>
    match lat.getD j none, lon.getD j none,
          lat.getD (j + 1) none, lon.getD (j + 1) none,
          uwnd.getD j none, vwnd.getD j none with
    | some a1, some b1, some a2, some b2, some u, some v =>
        npDivFin (hv (a1, b1) (a2, b2)) (sq (u * u + v * v))
    | _, _, _, _, _, _ => NpVal.nan)

/-- update_time (sorc/obsio/sonde/advect/update_time.py, lines 66-141;
duplicated in advect.py lines 325-400): compute the offset seconds, the
cumulative sums `dtime_list[k] = sum(offset_seconds[0:k])`, format each
against the cycle timestamp after prepending the cycle's own base
date/time, and `choparr` the two resulting sequences.  `none` models the
exception `datestrupdate` raises on a non-finite offset (the mutated
`offset_seconds` value never reaches a normal return in that case). -/
def update_time (hv : ℚ × ℚ → ℚ × ℚ → ℚ) (sq : ℚ → ℚ)
    (fmtD : ℚ → ℚ) (fmtT : ℚ → ℤ) (ctx : Tempdrop) : Option Tempdrop :=
  let offsets := offsetSeconds hv sq ctx.interp.lat ctx.interp.lon
    ctx.interp.uwnd ctx.interp.vwnd
  let dtimes := (List.range offsets.length).map (fun k => npSum (offsets.take k))
  match seqFin dtimes with
  | some qs =>
      some { ctx with interp := { ctx.interp with
        offset_seconds := offsets
        yymmdd := choparr (ctx.dateinfo.yymmdd0 :: qs.map fmtD)
        hhmm := choparr (ctx.dateinfo.hhmm0 :: qs.map fmtT) } }
  | none => none

/-- One output record of the HSA writer, in the field order of its fixed
format string
`"{:2d} {:7.1f} {:4d} {:7.3f} {:7.3f} {:7.1f} {:7.1f} {:7.1f} {:8.1f} {:6.1f} {:6.1f} {}"`.
The fixed-width decimal rendering itself is not modelled; each field
carries the value handed to the format call. -/
structure HsaLine where
  iflag : ℤ
  yymmdd : ℚ
  hhmm : ℤ
  lat : Option ℚ
  lon : Option ℚ
  pres : Option ℚ
  temp : Option ℚ
  rh : Option ℚ
  hgt : Option ℚ
  uwnd : Option ℚ
  vwnd : Option ℚ
  flag : List Char
deriving DecidableEq

def dummyLine : HsaLine :=
  { iflag := 0, yymmdd := 0, hhmm := 0, lat := none, lon := none,
    pres := none, temp := none, rh := none, hgt := none, uwnd := none,
    vwnd := none, flag := [] }

/-- write_hsa (sorc/obsio/sonde/hsa/write.py, lines 63-103): the output
path is the input path with ".hsa" appended, and one line is emitted per
entry of `interp.pres`, fields in the fixed format-string order. -/
def write_hsa (ctx : Tempdrop) : List Char × List HsaLine :=
  (ctx.filepath ++ ".hsa".toList,
   (List.range ctx.interp.pres.length).map (fun idx =>
     { iflag := 1
       yymmdd := ctx.interp.yymmdd.getD idx 0
       hhmm := ctx.interp.hhmm.getD idx 0
       lat := ctx.interp.lat.getD idx none
       lon := ctx.interp.lon.getD idx none
       pres := ctx.interp.pres.getD idx none
       temp := ctx.interp.temp.getD idx none
       rh := ctx.interp.rh.getD idx none
       hgt := ctx.interp.hgt.getD idx none
       uwnd := ctx.interp.uwnd.getD idx none
       vwnd := ctx.interp.vwnd.getD idx none
       flag := ctx.interp.flag.getD idx [] }))

theorem getD_map_range {β : Type} (n : ℕ) (f : ℕ → β) (d : β) {i : ℕ}
    (hi : i < n) : ((List.range n).map f).getD i d = f i := by
  rw [List.getD_eq_getElem?_getD, List.getElem?_map, List.getElem?_range hi]
  rfl

theorem normAxisOpt_of_seqOpt_some {a b : ℚ} {xs : List (Option ℚ)}
    {ys : List ℚ} (h : seqOpt xs = some ys)
    (hsp : listMax ys - listMin ys ≠ 0) :
    normAxisOpt a b xs = some ((normalizeAxis a b ys).map some) := by
  rw [normAxisOpt, h]
  exact if_neg hsp

/-- C6: when the advected latitude list has a nonzero span (and
symmetrically the longitude list), `__normalize__` succeeds and the
minimum/maximum of the corrected latitude sequence equal
`min(rel.lat, spg.lat)` / `max(rel.lat, spg.lat)`, and likewise per axis
for the corrected longitude sequence with `rel.lon` / `spg.lon`. -/
theorem normalize_spec (ctx : Tempdrop) (ys zs : List ℚ)
    (hy : ys ≠ []) (hz : zs ≠ [])
    (hsy : listMin ys ≠ listMax ys) (hsz : listMin zs ≠ listMax zs) :
    __normalize__ ctx (ys.map some) (zs.map some) =
      some { ctx with interp := { ctx.interp with
        lat := (normalizeAxis ctx.locate.rel.1 ctx.locate.spg.1 ys).map some
        lon := (normalizeAxis ctx.locate.rel.2 ctx.locate.spg.2 zs).map some } } ∧
    listMin (normalizeAxis ctx.locate.rel.1 ctx.locate.spg.1 ys) =
      min ctx.locate.rel.1 ctx.locate.spg.1 ∧
    listMax (normalizeAxis ctx.locate.rel.1 ctx.locate.spg.1 ys) =
      max ctx.locate.rel.1 ctx.locate.spg.1 ∧
    listMin (normalizeAxis ctx.locate.rel.2 ctx.locate.spg.2 zs) =
      min ctx.locate.rel.2 ctx.locate.spg.2 ∧
    listMax (normalizeAxis ctx.locate.rel.2 ctx.locate.spg.2 zs) =
      max ctx.locate.rel.2 ctx.locate.spg.2 := by
  have hA := normAxisOpt_of_seqOpt_some (a := ctx.locate.rel.1)
    (b := ctx.locate.spg.1) (seqOpt_map_some ys)
    (sub_ne_zero.mpr (Ne.symm hsy))
  have hB := normAxisOpt_of_seqOpt_some (a := ctx.locate.rel.2)
    (b := ctx.locate.spg.2) (seqOpt_map_some zs)
    (sub_ne_zero.mpr (Ne.symm hsz))
  refine ⟨?_, normalizeAxis_min _ _ _ hy hsy, normalizeAxis_max _ _ _ hy hsy,
    normalizeAxis_min _ _ _ hz hsz, normalizeAxis_max _ _ _ hz hsz⟩
  rw [__normalize__, hA, hB]

/-- Witness for C6 at a concrete input: release (10, 20), splash
(11, 21), advected spans [10, 12] / [20, 26]. -/
theorem normalize_spec_witness :
    listMin (normalizeAxis 10 11 [10, 12]) = 10 ∧
    listMax (normalizeAxis 10 11 [10, 12]) = 11 ∧
    listMin (normalizeAxis 20 21 [20, 26]) = 20 ∧
    listMax (normalizeAxis 20 21 [20, 26]) = 21 := by
  have h := normalize_spec
    { filepath := [], dateinfo := { yymmdd0 := 0, hhmm0 := 0 },
      locate := { rel := (10, 20), spg := (11, 21) },
      interp := { hgt := [], rh := [], temp := [], uwnd := [], vwnd := [],
                  pres := [], flag := [], psfc := none } }
    [10, 12] [20, 26] (by decide) (by decide) (by decide) (by decide)
  exact ⟨h.2.1.trans (by norm_num), h.2.2.1.trans (by norm_num),
    h.2.2.2.1.trans (by norm_num), h.2.2.2.2.trans (by norm_num)⟩

/-- C4: the writer's output path is the input path with ".hsa" appended,
and exactly one line is emitted per entry of `interp.pres`, whose fields
are (constant flag 1, date, time, lat, lon, pres, temp, rh, hgt, uwnd,
vwnd, level-type flag) in the fixed format-string order. -/
theorem write_hsa_spec (ctx : Tempdrop) :
    (write_hsa ctx).1 = ctx.filepath ++ ".hsa".toList ∧
    (write_hsa ctx).2.length = ctx.interp.pres.length ∧
    ∀ idx, idx < ctx.interp.pres.length →
      (write_hsa ctx).2.getD idx dummyLine =
        { iflag := 1
          yymmdd := ctx.interp.yymmdd.getD idx 0
          hhmm := ctx.interp.hhmm.getD idx 0
          lat := ctx.interp.lat.getD idx none
          lon := ctx.interp.lon.getD idx none
          pres := ctx.interp.pres.getD idx none
          temp := ctx.interp.temp.getD idx none
          rh := ctx.interp.rh.getD idx none
          hgt := ctx.interp.hgt.getD idx none
          uwnd := ctx.interp.uwnd.getD idx none
          vwnd := ctx.interp.vwnd.getD idx none
          flag := ctx.interp.flag.getD idx [] } := by
  refine ⟨rfl, ?_, fun idx hidx => ?_⟩
  · rw [write_hsa]
    simp
  · exact getD_map_range _ _ _ hidx

/-! ### A concrete end-to-end run, used by the counterexamples and
witnesses below: two valid decoded levels, simple instantiations of the
external collaborators. -/

def exRecs : List SondeRec :=
  [ { hgt := some 1500, pres := some 850, rh := some 50, temp := some 20,
      uwnd := some 1, vwnd := some 2, flag := "MANL".toList },
    { hgt := some 3000, pres := some 700, rh := some 40, temp := some 10,
      uwnd := some 3, vwnd := some 4, flag := "SIGL".toList } ]

def exCtx1 : Tempdrop :=
  { filepath := "202401010600.KNHC".toList
    dateinfo := { yymmdd0 := 240101, hhmm0 := 600 }
    locate := { rel := (10, 20), spg := (11, 21) }
    interp := interpsonde exRecs }

def exG : Option ℚ → Option ℚ → Option ℚ → Option ℚ := fun _ _ _ => some 1

def exBrng : ℚ × ℚ → ℚ → ℚ → ℚ × ℚ := fun p _ _ => (p.1 + 1, p.2 + 1)

def exDrift : Option Tempdrop :=
  drift exG (some 0) (fun _ _ => 0) (fun q => q) exBrng exCtx1

def exCtx4 : Tempdrop := exDrift.getD exCtx1

def exUpd : Option Tempdrop :=
  update_time (fun _ _ => 10) (fun q => q) (fun q => q) (fun _ => 0) exCtx4

def exCtx5 : Tempdrop := exUpd.getD exCtx1

/-- Witness for C4 at the concrete run: the first emitted line carries
the level-0 fields. -/
theorem write_hsa_spec_witness :
    (write_hsa exCtx1).1 = "202401010600.KNHC.hsa".toList ∧
    (write_hsa exCtx1).2.getD 0 dummyLine =
      { iflag := 1, yymmdd := 0, hhmm := 0, lat := none, lon := none,
        pres := some 850, temp := some 20, rh := some 50, hgt := some 1500,
        uwnd := some 1, vwnd := some 2, flag := "MANL".toList } := by
  have h := write_hsa_spec exCtx1
  refine ⟨h.1.trans (by decide), ?_⟩
  exact (h.2.2 0 (by decide)).trans (by decide)

/-- A drift-corrected context whose level-0 winds are both zero: the
update_time division `dist / sqrt(u² + v²)` divides by zero. -/
def exZeroCtx : Tempdrop :=
  { filepath := "202401010600.KNHC".toList
    dateinfo := { yymmdd0 := 240101, hhmm0 := 600 }
    locate := { rel := (10, 20), spg := (11, 21) }
    interp := { hgt := [some 1500, some 3000], rh := [some 50, some 40],
                temp := [some 20, some 10], uwnd := [some 0],
                vwnd := [some 0], pres := [some 850],
                flag := ["MANL".toList], psfc := some 850,
                lat := [some 10, some 11], lon := [some 20, some 21] } }

def exZeroUpd : Option Tempdrop :=
  update_time (fun _ _ => 10) (fun q => q) (fun q => q) (fun _ => 0) exZeroCtx

/-- C3 (the code violates the claim): at a level with zero wind,
`update_time`'s offset computation performs an unguarded numpy float64
division by zero and `update_time` returns normally with Inf stored in
`interp.offset_seconds` — no explicit computation error is raised (the
cumulative sums `sum(offset_seconds[0:k])`, k < len, never include the
final offset, so the Inf never even reaches the timestamp formatter
here). -/
theorem update_time_zero_velocity_inf :
    exZeroUpd = some (exZeroUpd.getD exZeroCtx) ∧
    (exZeroUpd.getD exZeroCtx).interp.offset_seconds =
      [NpVal.fin 0, NpVal.inf] := by
  constructor
  · decide
  · decide

/-- C1 counterexample: in the concrete two-level run, the corrected
position arrays produced by the drift stage have three entries — one
more than `interp.pres` — so not every array in the interp group has
length `len(interp.pres)`. -/
theorem interp_group_length_counterexample :
    exDrift = some exCtx4 ∧
    exCtx4.interp.lat.length = 3 ∧
    exCtx4.interp.lon.length = 3 ∧
    exCtx4.interp.pres.length = 2 := by
  refine ⟨by decide, by decide, by decide, by decide⟩

/-- C2 counterexample: in the same run, after the choparr step the
`interp.yymmdd` and `interp.hhmm` sequences have three entries while the
level grid `interp.pres` has two, so their lengths do not equal
`len(interp.pres)`. -/
theorem update_time_length_counterexample :
    exUpd = some exCtx5 ∧
    exCtx5.interp.yymmdd.length = 3 ∧
    exCtx5.interp.hhmm.length = 3 ∧
    exCtx5.interp.pres.length = 2 := by
  refine ⟨by decide, by decide, by decide, by decide⟩

theorem advectPath_length (brng : ℚ × ℚ → ℚ → ℚ → ℚ × ℚ)
    (pos : Option ℚ × Option ℚ) (l : List (Option ℚ × Option ℚ)) :
    (advectPath brng pos l).length = l.length := by
  induction l generalizing pos with
  | nil => rfl
  | cons dh rest ih => simp [advectPath, ih]

theorem offsetSeconds_length (hv : ℚ × ℚ → ℚ × ℚ → ℚ) (sq : ℚ → ℚ)
    (lat lon uwnd vwnd : List (Option ℚ)) :
    (offsetSeconds hv sq lat lon uwnd vwnd).length = 1 + (lat.length - 1) := by
  simp [offsetSeconds]
  omega

theorem interpsonde_lengths (recs : List SondeRec) :
    (interpsonde recs).hgt.length = (selectIdx recs).length ∧
    (interpsonde recs).rh.length = (selectIdx recs).length ∧
    (interpsonde recs).temp.length = (selectIdx recs).length ∧
    (interpsonde recs).uwnd.length = (selectIdx recs).length ∧
    (interpsonde recs).vwnd.length = (selectIdx recs).length ∧
    (interpsonde recs).pres.length = (selectIdx recs).length ∧
    (interpsonde recs).flag.length = (selectIdx recs).length := by
  refine ⟨?_, ?_, ?_, ?_, ?_, ?_, ?_⟩ <;>
    simp [interpsonde, interp_hsa_length]

theorem __normalize___some {ctx : Tempdrop} {xs zs : List (Option ℚ)}
    {ctx' : Tempdrop} (h : __normalize__ ctx xs zs = some ctx') :
    ∃ lats lons,
      normAxisOpt ctx.locate.rel.1 ctx.locate.spg.1 xs = some lats ∧
      normAxisOpt ctx.locate.rel.2 ctx.locate.spg.2 zs = some lons ∧
      ctx' = { ctx with interp :=
        { ctx.interp with lat := lats, lon := lons } } := by
  rw [__normalize__] at h
  cases h1 : normAxisOpt ctx.locate.rel.1 ctx.locate.spg.1 xs with
  | none =>
      rw [h1] at h
      exact Option.noConfusion h
  | some lats =>
      cases h2 : normAxisOpt ctx.locate.rel.2 ctx.locate.spg.2 zs with
      | none =>
          rw [h1, h2] at h
          exact Option.noConfusion h
      | some lons =>
          rw [h1, h2] at h
          have h' : some { ctx with interp :=
              { ctx.interp with lat := lats, lon := lons } } = some ctx' := h
          injection h' with h'
          exact ⟨lats, lons, rfl, rfl, h'.symm⟩

/-- Inversion of a successful `advect`: the corrected position arrays
have one more entry than the per-level (dist, heading) pairs, and every
other group of the context is carried through unchanged. -/
theorem advect_some {brng : ℚ × ℚ → ℚ → ℚ → ℚ × ℚ} {ctx ctx4 : Tempdrop}
    (h : advect brng ctx = some ctx4) :
    ctx4.interp.lat.length =
      1 + min ctx.interp.dist.length ctx.interp.heading.length ∧
    ctx4.interp.lon.length =
      1 + min ctx.interp.dist.length ctx.interp.heading.length ∧
    ctx4.layer = ctx.layer ∧
    ctx4.dateinfo = ctx.dateinfo ∧
    ctx4.interp.pres = ctx.interp.pres ∧
    ctx4.interp.uwnd = ctx.interp.uwnd ∧
    ctx4.interp.vwnd = ctx.interp.vwnd ∧
    ctx4.interp.fallrate = ctx.interp.fallrate ∧
    ctx4.interp.heading = ctx.interp.heading ∧
    ctx4.interp.dist = ctx.interp.dist ∧
    ctx4.interp.lon.length = ctx4.interp.lat.length := by
  simp only [advect] at h
  obtain ⟨lats, lons, hA, hB, hctx⟩ := __normalize___some h
  have hlat : ctx4.interp.lat = lats := by rw [hctx]
  have hlon : ctx4.interp.lon = lons := by rw [hctx]
  have hlats : lats.length =
      1 + min ctx.interp.dist.length ctx.interp.heading.length := by
    rw [normAxisOpt_length hA, List.length_map, List.length_cons,
      advectPath_length, List.length_zip]
    omega
  have hlons : lons.length =
      1 + min ctx.interp.dist.length ctx.interp.heading.length := by
    rw [normAxisOpt_length hB, List.length_map, List.length_cons,
      advectPath_length, List.length_zip]
    omega
  refine ⟨by rw [hlat, hlats], by rw [hlon, hlons],
    by rw [hctx], by rw [hctx], by rw [hctx], by rw [hctx], by rw [hctx],
    by rw [hctx], by rw [hctx], by rw [hctx],
    by rw [hlat, hlon, hlats, hlons]⟩

theorem update_time_some {hv : ℚ × ℚ → ℚ × ℚ → ℚ} {sq : ℚ → ℚ}
    {fmtD : ℚ → ℚ} {fmtT : ℚ → ℤ} {ctx ctx' : Tempdrop}
    (h : update_time hv sq fmtD fmtT ctx = some ctx') :
    ∃ qs : List ℚ,
      qs.length = (offsetSeconds hv sq ctx.interp.lat ctx.interp.lon
        ctx.interp.uwnd ctx.interp.vwnd).length ∧
      ctx'.interp.offset_seconds = offsetSeconds hv sq ctx.interp.lat
        ctx.interp.lon ctx.interp.uwnd ctx.interp.vwnd ∧
      ctx'.interp.yymmdd = choparr (ctx.dateinfo.yymmdd0 :: qs.map fmtD) ∧
      ctx'.interp.hhmm = choparr (ctx.dateinfo.hhmm0 :: qs.map fmtT) := by
  simp only [update_time] at h
  cases hseq : seqFin ((List.range (offsetSeconds hv sq ctx.interp.lat
      ctx.interp.lon ctx.interp.uwnd ctx.interp.vwnd).length).map
      (fun k => npSum ((offsetSeconds hv sq ctx.interp.lat ctx.interp.lon
        ctx.interp.uwnd ctx.interp.vwnd).take k))) with
  | none =>
      rw [hseq] at h
      exact Option.noConfusion h
  | some qs =>
      rw [hseq] at h
      have h' : some ({ ctx with interp := { ctx.interp with
          offset_seconds := offsetSeconds hv sq ctx.interp.lat ctx.interp.lon
            ctx.interp.uwnd ctx.interp.vwnd
          yymmdd := choparr (ctx.dateinfo.yymmdd0 :: qs.map fmtD)
          hhmm := choparr (ctx.dateinfo.hhmm0 :: qs.map fmtT) } } : Tempdrop)
          = some ctx' := h
      injection h' with h'
      have hq : qs.length = (offsetSeconds hv sq ctx.interp.lat
          ctx.interp.lon ctx.interp.uwnd ctx.interp.vwnd).length := by
        have := seqFin_length hseq
        simpa using this
      exact ⟨qs, hq, by rw [← h'], by rw [← h'], by rw [← h']⟩

theorem correct_pres (g : Option ℚ → Option ℚ → Option ℚ → Option ℚ)
    (junk : Option ℚ) (ctx : Tempdrop) :
    (correct g junk ctx).interp.pres = ctx.interp.pres := rfl

theorem correct_uwnd (g : Option ℚ → Option ℚ → Option ℚ → Option ℚ)
    (junk : Option ℚ) (ctx : Tempdrop) :
    (correct g junk ctx).interp.uwnd = ctx.interp.uwnd := rfl

theorem correct_vwnd (g : Option ℚ → Option ℚ → Option ℚ → Option ℚ)
    (junk : Option ℚ) (ctx : Tempdrop) :
    (correct g junk ctx).interp.vwnd = ctx.interp.vwnd := rfl

theorem correct_temp (g : Option ℚ → Option ℚ → Option ℚ → Option ℚ)
    (junk : Option ℚ) (ctx : Tempdrop) :
    (correct g junk ctx).interp.temp = ctx.interp.temp := rfl

theorem correct_avgp (g : Option ℚ → Option ℚ → Option ℚ → Option ℚ)
    (junk : Option ℚ) (ctx : Tempdrop) :
    (correct g junk ctx).layer.avgp = choparr (layer_mean junk ctx.interp.pres) := rfl

theorem correct_avgt (g : Option ℚ → Option ℚ → Option ℚ → Option ℚ)
    (junk : Option ℚ) (ctx : Tempdrop) :
    (correct g junk ctx).layer.avgt = choparr (layer_mean junk ctx.interp.temp) := rfl

theorem correct_avgu (g : Option ℚ → Option ℚ → Option ℚ → Option ℚ)
    (junk : Option ℚ) (ctx : Tempdrop) :
    (correct g junk ctx).layer.avgu = choparr (layer_mean junk ctx.interp.uwnd) := rfl

theorem correct_avgv (g : Option ℚ → Option ℚ → Option ℚ → Option ℚ)
    (junk : Option ℚ) (ctx : Tempdrop) :
    (correct g junk ctx).layer.avgv = choparr (layer_mean junk ctx.interp.vwnd) := rfl

theorem correct_fallrate (g : Option ℚ → Option ℚ → Option ℚ → Option ℚ)
    (junk : Option ℚ) (ctx : Tempdrop) :
    (correct g junk ctx).interp.fallrate =
      interp_hsa (fallrate g (choparr (layer_mean junk ctx.interp.pres))
        (choparr (layer_mean junk ctx.interp.temp)) ctx.interp.psfc)
        ctx.interp.pres := rfl

theorem correct_fallrate_length
    (g : Option ℚ → Option ℚ → Option ℚ → Option ℚ)
    (junk : Option ℚ) (ctx : Tempdrop) :
    (correct g junk ctx).interp.fallrate.length =
      ctx.interp.pres.length - 1 + 1 := by
  rw [correct_fallrate, interp_hsa_length]
  simp [fallrate, choparr_length, layer_mean_length]

theorem driftCtx_heading (g : Option ℚ → Option ℚ → Option ℚ → Option ℚ)
    (junk : Option ℚ) (at2 : ℚ → ℚ → ℚ) (sq : ℚ → ℚ) (ctx : Tempdrop) :
    (driftCtx g junk at2 sq ctx).interp.heading =
      driftHeading at2 (correct g junk ctx) := rfl

theorem driftCtx_dist (g : Option ℚ → Option ℚ → Option ℚ → Option ℚ)
    (junk : Option ℚ) (at2 : ℚ → ℚ → ℚ) (sq : ℚ → ℚ) (ctx : Tempdrop) :
    (driftCtx g junk at2 sq ctx).interp.dist =
      driftDist sq (correct g junk ctx) := rfl

theorem driftCtx_layer (g : Option ℚ → Option ℚ → Option ℚ → Option ℚ)
    (junk : Option ℚ) (at2 : ℚ → ℚ → ℚ) (sq : ℚ → ℚ) (ctx : Tempdrop) :
    (driftCtx g junk at2 sq ctx).layer = (correct g junk ctx).layer := rfl

theorem correct_dateinfo (g : Option ℚ → Option ℚ → Option ℚ → Option ℚ)
    (junk : Option ℚ) (ctx : Tempdrop) :
    (correct g junk ctx).dateinfo = ctx.dateinfo := rfl

theorem driftCtx_pres (g : Option ℚ → Option ℚ → Option ℚ → Option ℚ)
    (junk : Option ℚ) (at2 : ℚ → ℚ → ℚ) (sq : ℚ → ℚ) (ctx : Tempdrop) :
    (driftCtx g junk at2 sq ctx).interp.pres =
      (correct g junk ctx).interp.pres := rfl

theorem driftCtx_uwnd (g : Option ℚ → Option ℚ → Option ℚ → Option ℚ)
    (junk : Option ℚ) (at2 : ℚ → ℚ → ℚ) (sq : ℚ → ℚ) (ctx : Tempdrop) :
    (driftCtx g junk at2 sq ctx).interp.uwnd =
      (correct g junk ctx).interp.uwnd := rfl

theorem driftCtx_vwnd (g : Option ℚ → Option ℚ → Option ℚ → Option ℚ)
    (junk : Option ℚ) (at2 : ℚ → ℚ → ℚ) (sq : ℚ → ℚ) (ctx : Tempdrop) :
    (driftCtx g junk at2 sq ctx).interp.vwnd =
      (correct g junk ctx).interp.vwnd := rfl

theorem driftCtx_fallrate (g : Option ℚ → Option ℚ → Option ℚ → Option ℚ)
    (junk : Option ℚ) (at2 : ℚ → ℚ → ℚ) (sq : ℚ → ℚ) (ctx : Tempdrop) :
    (driftCtx g junk at2 sq ctx).interp.fallrate =
      (correct g junk ctx).interp.fallrate := rfl

theorem driftCtx_dateinfo (g : Option ℚ → Option ℚ → Option ℚ → Option ℚ)
    (junk : Option ℚ) (at2 : ℚ → ℚ → ℚ) (sq : ℚ → ℚ) (ctx : Tempdrop) :
    (driftCtx g junk at2 sq ctx).dateinfo = (correct g junk ctx).dateinfo := rfl

theorem driftHeading_length (at2 : ℚ → ℚ → ℚ) (ctx1 : Tempdrop) :
    (driftHeading at2 ctx1).length =
      min ctx1.interp.uwnd.length ctx1.interp.vwnd.length := by
  simp [driftHeading, List.length_zipWith]

theorem driftDist_length (sq : ℚ → ℚ) (ctx1 : Tempdrop) :
    (driftDist sq ctx1).length =
      min (min ctx1.interp.uwnd.length ctx1.interp.vwnd.length)
        ctx1.interp.fallrate.length := by
  simp [driftDist, List.length_zipWith]

/-- The observation context as assembled by the run method before the
drift-correction stages. -/
def mkCtx (fp : List Char) (di : DateInfo) (loc : Locate)
    (recs : List SondeRec) : Tempdrop :=
  { filepath := fp, dateinfo := di, locate := loc, interp := interpsonde recs }

theorem mkCtx_interp (fp : List Char) (di : DateInfo) (loc : Locate)
    (recs : List SondeRec) : (mkCtx fp di loc recs).interp = interpsonde recs := rfl

theorem mkCtx_dateinfo (fp : List Char) (di : DateInfo) (loc : Locate)
    (recs : List SondeRec) : (mkCtx fp di loc recs).dateinfo = di := rfl

/-- C1 (amended): after the vertical-interpolation stage every array in
the interp group (hgt, rh, temp, uwnd, vwnd, pres, flag) has the same
length as interp.pres; after the layer/fall-rate and drift stages the
layer arrays (avgp, avgt, avgu, avgv) have length len(interp.pres) − 1
and fallrate, heading, dist have length len(interp.pres), while the
corrected position arrays lat and lon have length len(interp.pres) + 1
(the integrated trajectory also contains the release point); after time
reconstruction offset_seconds, yymmdd and hhmm likewise have length
len(interp.pres) + 1. -/
theorem pipeline_lengths
    (g : Option ℚ → Option ℚ → Option ℚ → Option ℚ) (junk : Option ℚ)
    (at2 : ℚ → ℚ → ℚ) (sq : ℚ → ℚ) (brng : ℚ × ℚ → ℚ → ℚ → ℚ × ℚ)
    (hv : ℚ × ℚ → ℚ × ℚ → ℚ) (fmtD : ℚ → ℚ) (fmtT : ℚ → ℤ)
    (recs : List SondeRec) (fp : List Char) (di : DateInfo) (loc : Locate)
    (hN : 2 ≤ (interpsonde recs).pres.length) :
    ((interpsonde recs).hgt.length = (interpsonde recs).pres.length ∧
     (interpsonde recs).rh.length = (interpsonde recs).pres.length ∧
     (interpsonde recs).temp.length = (interpsonde recs).pres.length ∧
     (interpsonde recs).uwnd.length = (interpsonde recs).pres.length ∧
     (interpsonde recs).vwnd.length = (interpsonde recs).pres.length ∧
     (interpsonde recs).flag.length = (interpsonde recs).pres.length) ∧
    ∀ ctx4, drift g junk at2 sq brng (mkCtx fp di loc recs) = some ctx4 →
      (ctx4.layer.avgp.length = (interpsonde recs).pres.length - 1 ∧
       ctx4.layer.avgt.length = (interpsonde recs).pres.length - 1 ∧
       ctx4.layer.avgu.length = (interpsonde recs).pres.length - 1 ∧
       ctx4.layer.avgv.length = (interpsonde recs).pres.length - 1 ∧
       ctx4.interp.fallrate.length = (interpsonde recs).pres.length ∧
       ctx4.interp.heading.length = (interpsonde recs).pres.length ∧
       ctx4.interp.dist.length = (interpsonde recs).pres.length ∧
       ctx4.interp.pres.length = (interpsonde recs).pres.length ∧
       ctx4.interp.lat.length = (interpsonde recs).pres.length + 1 ∧
       ctx4.interp.lon.length = (interpsonde recs).pres.length + 1) ∧
      ∀ ctx5, update_time hv sq fmtD fmtT ctx4 = some ctx5 →
        ctx5.interp.offset_seconds.length =
          (interpsonde recs).pres.length + 1 ∧
        ctx5.interp.yymmdd.length = (interpsonde recs).pres.length + 1 ∧
        ctx5.interp.hhmm.length = (interpsonde recs).pres.length + 1 := by
  obtain ⟨e1, e2, e3, e4, e5, e6, e7⟩ := interpsonde_lengths recs
  refine ⟨⟨e1.trans e6.symm, e2.trans e6.symm, e3.trans e6.symm,
    e4.trans e6.symm, e5.trans e6.symm, e7.trans e6.symm⟩,
    fun ctx4 hdrift => ?_⟩
  simp only [drift] at hdrift
  obtain ⟨hlat4, hlon4, hlay4, hdate4, hpres4, huwnd4, hvwnd4, hfall4,
    hhead4, hdist4, _⟩ := advect_some hdrift
  have hfl : (driftCtx g junk at2 sq (mkCtx fp di loc recs)).interp.fallrate.length
      = (interpsonde recs).pres.length := by
    rw [driftCtx_fallrate, correct_fallrate_length, mkCtx_interp]
    omega
  have hhl : (driftCtx g junk at2 sq (mkCtx fp di loc recs)).interp.heading.length
      = (interpsonde recs).pres.length := by
    rw [driftCtx_heading, driftHeading_length, correct_uwnd, correct_vwnd,
      mkCtx_interp]
    omega
  have hdl : (driftCtx g junk at2 sq (mkCtx fp di loc recs)).interp.dist.length
      = (interpsonde recs).pres.length := by
    rw [driftCtx_dist, driftDist_length, correct_uwnd, correct_vwnd]
    have hc := correct_fallrate_length g junk (mkCtx fp di loc recs)
    rw [hc, mkCtx_interp]
    omega
  refine ⟨⟨?_, ?_, ?_, ?_, ?_, ?_, ?_, ?_, ?_, ?_⟩, fun ctx5 hupd => ?_⟩
  · rw [hlay4, driftCtx_layer, correct_avgp, mkCtx_interp, choparr_length,
      layer_mean_length]
  · rw [hlay4, driftCtx_layer, correct_avgt, mkCtx_interp, choparr_length,
      layer_mean_length]
    omega
  · rw [hlay4, driftCtx_layer, correct_avgu, mkCtx_interp, choparr_length,
      layer_mean_length]
    omega
  · rw [hlay4, driftCtx_layer, correct_avgv, mkCtx_interp, choparr_length,
      layer_mean_length]
    omega
  · rw [hfall4, hfl]
  · rw [hhead4, hhl]
  · rw [hdist4, hdl]
  · rw [hpres4, driftCtx_pres, correct_pres, mkCtx_interp]
  · rw [hlat4, hdl, hhl]
    omega
  · rw [hlon4, hdl, hhl]
    omega
  · obtain ⟨qs, hqs, hoff5, hyy5, hhh5⟩ := update_time_some hupd
    have hoslen : (offsetSeconds hv sq ctx4.interp.lat ctx4.interp.lon
        ctx4.interp.uwnd ctx4.interp.vwnd).length =
        (interpsonde recs).pres.length + 1 := by
      rw [offsetSeconds_length, hlat4, hdl, hhl]
      omega
    refine ⟨?_, ?_, ?_⟩
    · rw [hoff5, hoslen]
    · rw [hyy5, choparr_length, List.length_cons, List.length_map, hqs,
        hoslen]
      omega
    · rw [hhh5, choparr_length, List.length_cons, List.length_map, hqs,
        hoslen]
      omega

/-- Witness for C1 (amended) at the concrete two-level run: layer arrays
have one entry, fallrate two, the corrected positions three, and the
reconstructed timestamp arrays three. -/
theorem pipeline_lengths_witness :
    exCtx4.layer.avgp.length = 1 ∧ exCtx4.interp.fallrate.length = 2 ∧
    exCtx4.interp.lat.length = 3 ∧ exCtx5.interp.yymmdd.length = 3 := by
  have h := pipeline_lengths exG (some 0) (fun _ _ => 0) (fun q => q) exBrng
    (fun _ _ => 10) (fun q => q) (fun _ => 0) exRecs
    "202401010600.KNHC".toList { yymmdd0 := 240101, hhmm0 := 600 }
    { rel := (10, 20), spg := (11, 21) } (by decide)
  have h2 := h.2 exCtx4 (by decide)
  refine ⟨?_, ?_, ?_, ?_⟩
  · exact h2.1.1.trans (by decide)
  · exact h2.1.2.2.2.2.1.trans (by decide)
  · exact h2.1.2.2.2.2.2.2.2.2.1.trans (by decide)
  · exact ((h2.2 exCtx5 (by decide)).2.1).trans (by decide)

/-- C2 (amended): on a context with corrected positions,
`interp.offset_seconds[0]` is 0; for i ≥ 1, `offset_seconds[i]` equals
the haversine distance between corrected positions i−1 and i divided by
`sqrt(uwnd[i-1]² + vwnd[i-1]²)`; the `interp.yymmdd` and `interp.hhmm`
sequences are each built one entry longer than the cumulative-offset
sequence by prepending the cycle's base date/time, and after the choparr
step their lengths equal the length of the corrected-position sequence —
`len(interp.lat) = len(interp.pres) + 1`, one more than the level grid
(and not `len(interp.pres)` as originally claimed). -/
theorem update_time_spec (hv : ℚ × ℚ → ℚ × ℚ → ℚ) (sq : ℚ → ℚ)
    (fmtD : ℚ → ℚ) (fmtT : ℚ → ℤ) (ctx ctx' : Tempdrop)
    (hupd : update_time hv sq fmtD fmtT ctx = some ctx') :
    ctx'.interp.offset_seconds.getD 0 NpVal.nan = NpVal.fin 0 ∧
    (∀ i a1 b1 a2 b2 u v, 1 ≤ i → i < ctx.interp.lat.length →
      ctx.interp.lat.getD (i - 1) none = some a1 →
      ctx.interp.lon.getD (i - 1) none = some b1 →
      ctx.interp.lat.getD i none = some a2 →
      ctx.interp.lon.getD i none = some b2 →
      ctx.interp.uwnd.getD (i - 1) none = some u →
      ctx.interp.vwnd.getD (i - 1) none = some v →
      sq (u * u + v * v) ≠ 0 →
      ctx'.interp.offset_seconds.getD i NpVal.nan =
        NpVal.fin (hv (a1, b1) (a2, b2) / sq (u * u + v * v))) ∧
    (ctx.interp.lat.length = ctx.interp.pres.length + 1 →
      ctx'.interp.offset_seconds.length = ctx.interp.pres.length + 1 ∧
      ctx'.interp.yymmdd.length = ctx.interp.pres.length + 1 ∧
      ctx'.interp.hhmm.length = ctx.interp.pres.length + 1) := by
  obtain ⟨qs, hqs, hoff, hyy, hhh⟩ := update_time_some hupd
  refine ⟨?_, ?_, ?_⟩
  · rw [hoff]
    rfl
  · intro i a1 b1 a2 b2 u v h1 h2 hla hlo hla2 hlo2 hu hw hsq
    obtain ⟨j, rfl⟩ : ∃ j, i = j + 1 := ⟨i - 1, by omega⟩
    simp only [Nat.add_sub_cancel] at hla hlo hu hw
    rw [hoff, offsetSeconds, List.getD_cons_succ]
    rw [getD_map_range _ _ _ (by omega : j < ctx.interp.lat.length - 1)]
    rw [hla, hlo, hla2, hlo2, hu, hw]
    simp only [npDivFin]
    rw [if_neg hsq]
  · intro hlen
    refine ⟨?_, ?_, ?_⟩
    · rw [hoff, offsetSeconds_length]
      omega
    · rw [hyy, choparr_length, List.length_cons, List.length_map, hqs,
        offsetSeconds_length]
      omega
    · rw [hhh, choparr_length, List.length_cons, List.length_map, hqs,
        offsetSeconds_length]
      omega

/-- Witness for C2 (amended) at the concrete run: the first offset is 0,
the second is the haversine distance 10 divided by the speed 5, and the
timestamp arrays end up with three entries (level grid has two). -/
theorem update_time_spec_witness :
    exCtx5.interp.offset_seconds.getD 0 NpVal.nan = NpVal.fin 0 ∧
    exCtx5.interp.offset_seconds.getD 1 NpVal.nan = NpVal.fin 2 ∧
    exCtx5.interp.yymmdd.length = 3 := by
  have h := update_time_spec (fun _ _ => 10) (fun q => q) (fun q => q)
    (fun _ => 0) exCtx4 exCtx5 (by decide)
  refine ⟨h.1, ?_, ?_⟩
  · have h2 := h.2.1 1 10 20 (21 / 2) (41 / 2) 1 2 (by decide) (by decide)
      (by decide) (by decide) (by decide) (by decide) (by decide) (by decide)
      (by decide)
    exact h2.trans (by decide)
  · exact ((h.2.2 (by decide)).2.1).trans (by decide)

end UfsObs
